import Mathlib

/-!
Verification of the `signature` crate's contract layer.

The crate's code under verification is `src/signature/src/encoding.rs`: the
`SignatureEncoding` trait with its default method bodies. Its trait bounds
(`Clone`, `TryFrom<&[u8], Error = Error>`, `Into<Self::Repr>`,
`Repr : AsRef<[u8]>`) are embedded as operation fields of a structure, and the
default method bodies (`to_bytes`, `to_vec`) are translated verbatim. The
sibling modules `error.rs`, `signer.rs`, `verifier.rs` and `keypair.rs` are
declared by `lib.rs` but their sources are not present; the definitions that
stand in for them are modelled from the specification and say so in their
doc comments. Bytes are `Fin 256`, mirroring `u8`.
-/

/-- A `u8` as it appears in the slices `&[u8]` handled by the trait. -/
abbrev Byte := Fin 256

/-- Modelled from the spec: `error.rs` is not under `src/`. The single
opaque failure type returned by every fallible operation; it may internally
retain a causal chain or message for diagnostics, but no public
discriminant is exposed. -/
structure Error where
  diagnostic : Option String
  deriving DecidableEq

/-- Modelled from the spec: the construction path carrying no cause. -/
def Error.new : Error := ⟨none⟩

/-- Modelled from the spec: the consumer-visible surface of the error
carries no discriminant — calling code observes only that a failure
occurred, never which internal cause produced it. -/
def Error.publicView (_ : Error) : Unit := ()

/-- Shallow embedding of the trait `SignatureEncoding`
(`src/signature/src/encoding.rs`, lines 9-26). The supertrait bounds become
operation fields: `Clone` gives `clone`, `for<'a> TryFrom<&'a [u8], Error =
Error>` gives `try_from`, `Into<Self::Repr>` gives `into`, and the
associated type bound `Repr : AsRef<[u8]>` gives `as_ref`. -/
structure SignatureEncoding (S : Type) (Repr : Type) where
  clone : S → S
  try_from : List Byte → Except Error S
  into : S → Repr
  as_ref : Repr → List Byte

/-- Default body of `to_bytes` (`encoding.rs` lines 16-18):
`self.clone().into()`. -/
def SignatureEncoding.to_bytes {S Repr : Type} (e : SignatureEncoding S Repr)
    (s : S) : Repr :=
  e.into (e.clone s)

/-- `<[u8]>::to_vec`: copies a borrowed byte slice into an owned vector,
element by element. -/
def sliceToVec : List Byte → List Byte
  | [] => []
  | b :: rest => b :: sliceToVec rest

/-- Default body of `to_vec` (`encoding.rs` lines 23-25):
`self.to_bytes().as_ref().to_vec()`. -/
def SignatureEncoding.to_vec {S Repr : Type} (e : SignatureEncoding S Repr)
    (s : S) : List Byte :=
  sliceToVec (e.as_ref (e.to_bytes s))

/-- Modelled from the spec: no concrete signature type lives under `src/`;
the spec's concrete scenario names "signature type `Ed25519Like` with a
64-byte `Repr`". A value is valid when it holds exactly 64 bytes. -/
structure Ed25519Like where
  bytes : List Byte
  deriving DecidableEq

/-- Modelled from the spec: the `Ed25519Like` implementation of the
encoding contract. Decoding accepts exactly 64-byte buffers and rejects
every other input with the opaque error; encoding exposes the signature's
own 64 bytes. -/
def edEncoding : SignatureEncoding Ed25519Like (List Byte) where
  clone := fun s => s
  try_from := fun b =>
    if b.length = 64 then Except.ok ⟨b⟩ else Except.error Error.new
  into := fun s => s.bytes
  as_ref := fun r => r

/-- Modelled from the spec: a second signature type `A ≠ B` with a
differing length/layout (48-byte representation), used for the
cross-type-rejection property. -/
structure OtherSigLike where
  bytes : List Byte
  deriving DecidableEq

/-- Modelled from the spec: the encoding contract of the second signature
type; decoding accepts exactly 48-byte buffers. -/
def otherEncoding : SignatureEncoding OtherSigLike (List Byte) where
  clone := fun s => s
  try_from := fun b =>
    if b.length = 48 then Except.ok ⟨b⟩ else Except.error Error.new
  into := fun s => s.bytes
  as_ref := fun r => r

/-- Modelled from the spec: deterministic signing over key material and a
message, producing the 64-byte `Ed25519Like` layout (the concrete
algorithm is out of scope; only the contract shape matters). -/
def rawSign (key m : List Byte) : List Byte :=
  (key ++ m ++ List.replicate 64 (0 : Byte)).take 64

/-- Modelled from the spec: the verifying capability derived from a
keypair; holds the key material shared with the signing half. -/
structure VerifyingKey where
  key : List Byte
  deriving DecidableEq

/-- Modelled from the spec: `signer.rs` and `keypair.rs` are not under
`src/`. A keypair owning its key material, with a flag recording whether
the underlying algorithm or key state can currently produce a signature
(e.g. an external RNG or hardware token being available). -/
structure SigningKey where
  key : List Byte
  available : Bool
  deriving DecidableEq

/-- Modelled from the spec: fallible signing — fails with the opaque error
when the underlying algorithm or key state cannot produce a signature. -/
def SigningKey.try_sign (sk : SigningKey) (m : List Byte) :
    Except Error Ed25519Like :=
  if sk.available then Except.ok ⟨rawSign sk.key m⟩
  else Except.error Error.new

/-- Modelled from the spec: the infallible-path `sign`; when its
assumed-infallible precondition fails it aborts the calling context
non-recoverably, modelled as `none` (no value is ever returned). -/
def SigningKey.sign (sk : SigningKey) (m : List Byte) : Option Ed25519Like :=
  match sk.try_sign m with
  | Except.ok s => some s
  | Except.error _ => none

/-- Modelled from the spec: pure derivation of the verifying half from the
owned signing capability. -/
def SigningKey.verifying_half (sk : SigningKey) : VerifyingKey :=
  ⟨sk.key⟩

/-- Modelled from the spec: binary-outcome verification — success exactly
when the signature is valid for this message under this key; every other
condition yields the same opaque error. -/
def VerifyingKey.verify (vk : VerifyingKey) (m : List Byte)
    (s : Ed25519Like) : Except Error Unit :=
  if s.bytes = rawSign vk.key m then Except.ok () else Except.error Error.new

/-! ### Helper lemmas -/

/-- Copying a byte slice yields the same byte sequence. -/
theorem sliceToVec_eq_self : ∀ l : List Byte, sliceToVec l = l := by
  intro l
  induction l with
  | nil => rfl
  | cons b rest ih => simp [sliceToVec, ih]

/-- Any error value escaping `edEncoding.try_from` is the plain opaque
error. -/
theorem edEncoding_error_eq {b : List Byte} {e : Error}
    (h : edEncoding.try_from b = Except.error e) : e = Error.new := by
  by_cases hb : b.length = 64
  · simp [edEncoding, hb] at h
  · simp [edEncoding, hb] at h
    exact h.symm

/-- Any error value escaping `verify` is the plain opaque error. -/
theorem verify_error_eq {vk : VerifyingKey} {m : List Byte}
    {s : Ed25519Like} {e : Error}
    (h : vk.verify m s = Except.error e) : e = Error.new := by
  by_cases hs : s.bytes = rawSign vk.key m
  · simp [VerifyingKey.verify, hs] at h
  · simp [VerifyingKey.verify, hs] at h
    exact h.symm

/-- Any error value escaping `try_sign` is the plain opaque error. -/
theorem try_sign_error_eq {sk : SigningKey} {m : List Byte} {e : Error}
    (h : sk.try_sign m = Except.error e) : e = Error.new := by
  by_cases ha : sk.available
  · simp [SigningKey.try_sign, ha] at h
  · simp [SigningKey.try_sign, ha] at h
    exact h.symm

/-- A signature produced by `rawSign` from the keypair's own key always
verifies against the derived verifying half. -/
theorem verify_rawSign (sk : SigningKey) (m : List Byte) :
    (sk.verifying_half).verify m ⟨rawSign sk.key m⟩ = Except.ok () := by
  simp [SigningKey.verifying_half, VerifyingKey.verify]

/-- A successful `try_sign` produces exactly the raw signature over the
keypair's key. -/
theorem try_sign_ok {sk : SigningKey} {m : List Byte} {s : Ed25519Like}
    (h : sk.try_sign m = Except.ok s) : s = ⟨rawSign sk.key m⟩ := by
  by_cases ha : sk.available
  · simp [SigningKey.try_sign, ha] at h
    exact h.symm
  · simp [SigningKey.try_sign, ha] at h

/-- A value returned normally by `sign` is a successful `try_sign`
result. -/
theorem sign_some {sk : SigningKey} {m : List Byte} {s : Ed25519Like}
    (h : sk.sign m = some s) : sk.try_sign m = Except.ok s := by
  unfold SigningKey.sign at h
  rcases he : sk.try_sign m with e | s'
  · rw [he] at h
    simp at h
  · rw [he] at h
    simp at h
    rw [h]

/-! ### Claim theorems -/

/-- C1: round-trip — for every valid `Ed25519Like` signature `s` (exactly
64 bytes), decoding the byte representation produced by encoding `s` via
`to_bytes` yields `s` again. -/
theorem decode_encode_roundtrip (s : Ed25519Like)
    (h : s.bytes.length = 64) :
    edEncoding.try_from (edEncoding.as_ref (edEncoding.to_bytes s)) =
      Except.ok s := by
  simp [edEncoding, SignatureEncoding.to_bytes, h]

/-- Witness for C1 at a concrete 64-byte signature. -/
theorem decode_encode_roundtrip_witness :
    edEncoding.try_from
        (edEncoding.as_ref
          (edEncoding.to_bytes ⟨List.replicate 64 (0 : Byte)⟩)) =
      Except.ok ⟨List.replicate 64 (0 : Byte)⟩ :=
  decode_encode_roundtrip ⟨List.replicate 64 (0 : Byte)⟩ (by simp)

/-- C2: decoding succeeds exactly on the byte layouts produced by encoding
some valid `Ed25519Like` signature; every other input — in particular any
byte buffer produced by encoding the differing-length `OtherSigLike`
type — is rejected with the opaque error, never accepted. -/
theorem decode_exactly_encode_image :
    (∀ b : List Byte,
        (∃ s : Ed25519Like, s.bytes.length = 64 ∧
            edEncoding.as_ref (edEncoding.to_bytes s) = b) ↔
          ∃ s, edEncoding.try_from b = Except.ok s) ∧
    (∀ b : List Byte, b.length ≠ 64 →
        edEncoding.try_from b = Except.error Error.new) ∧
    (∀ a : OtherSigLike, a.bytes.length = 48 →
        edEncoding.try_from
            (otherEncoding.as_ref (otherEncoding.to_bytes a)) =
          Except.error Error.new) := by
  refine ⟨fun b => ⟨?_, ?_⟩, ?_, ?_⟩
  · rintro ⟨s, hs, hb⟩
    refine ⟨⟨b⟩, ?_⟩
    have hlen : b.length = 64 := by
      have hcb := congrArg List.length hb
      simp [edEncoding, SignatureEncoding.to_bytes, hs] at hcb
      exact hcb.symm
    simp [edEncoding, hlen]
  · rintro ⟨s, hs⟩
    by_cases hb : b.length = 64
    · exact ⟨⟨b⟩, hb, by simp [edEncoding, SignatureEncoding.to_bytes]⟩
    · simp [edEncoding, hb] at hs
  · intro b hb
    simp [edEncoding, hb]
  · intro a ha
    have hlen :
        (otherEncoding.as_ref (otherEncoding.to_bytes a)).length = 48 := by
      simpa [otherEncoding, SignatureEncoding.to_bytes] using ha
    simp [edEncoding, hlen]

/-- Witness for C2: the 48-byte encoding of a concrete `OtherSigLike`
value is rejected when decoded as `Ed25519Like`. -/
theorem decode_exactly_encode_image_witness :
    edEncoding.try_from
        (otherEncoding.as_ref
          (otherEncoding.to_bytes ⟨List.replicate 48 (0 : Byte)⟩)) =
      Except.error Error.new :=
  decode_exactly_encode_image.2.2 ⟨List.replicate 48 (0 : Byte)⟩ (by simp)

/-- C3: encoding is total and never fails: for every signature value of
any implementing type, `to_bytes` returns a byte representation (its
codomain carries no failure case), and on the `Ed25519Like` model the
result is exactly the signature's own bytes. -/
theorem to_bytes_total :
    (∀ (S R : Type) (e : SignatureEncoding S R) (s : S),
        ∃ r : R, e.to_bytes s = r) ∧
    (∀ s : Ed25519Like, edEncoding.to_bytes s = s.bytes) :=
  ⟨fun _ _ e s => ⟨e.to_bytes s, rfl⟩, fun _ => rfl⟩

/-- C4: decoding is total over untrusted input: every byte sequence of any
length and content yields either a valid (64-byte) signature or the opaque
error value — no third outcome exists. -/
theorem try_from_total (b : List Byte) :
    (∃ s : Ed25519Like,
        edEncoding.try_from b = Except.ok s ∧ s.bytes.length = 64) ∨
      edEncoding.try_from b = Except.error Error.new := by
  by_cases hb : b.length = 64
  · exact Or.inl ⟨⟨b⟩, by simp [edEncoding, hb], hb⟩
  · exact Or.inr (by simp [edEncoding, hb])

/-- C5: the derived owned-byte convenience is built only from encoding:
`to_vec` equals exactly the byte sequence exposed by `to_bytes`, copied to
an owned vector, for every implementing type and signature value. -/
theorem to_vec_eq_to_bytes :
    ∀ (S R : Type) (e : SignatureEncoding S R) (s : S),
      e.to_vec s = e.as_ref (e.to_bytes s) := by
  intro S R e s
  exact sliceToVec_eq_self (e.as_ref (e.to_bytes s))

/-- C6: the failure type is fully opaque: the public surface of any two
error values is indistinguishable, and the error values produced by the
distinct internal failure causes — malformed encoding, verification
mismatch, signing failure — are all equal, so calling code cannot branch
on the failure category. -/
theorem error_indistinguishable :
    (∀ e₁ e₂ : Error, e₁.publicView = e₂.publicView) ∧
    (∀ (b : List Byte) (e₁ : Error),
        edEncoding.try_from b = Except.error e₁ →
      ∀ (vk : VerifyingKey) (m : List Byte) (s : Ed25519Like) (e₂ : Error),
        vk.verify m s = Except.error e₂ →
      ∀ (sk : SigningKey) (m' : List Byte) (e₃ : Error),
        sk.try_sign m' = Except.error e₃ →
        e₁ = e₂ ∧ e₂ = e₃) := by
  refine ⟨fun _ _ => rfl, ?_⟩
  intro b e₁ h₁ vk m s e₂ h₂ sk m' e₃ h₃
  rw [edEncoding_error_eq h₁, verify_error_eq h₂, try_sign_error_eq h₃]
  exact ⟨rfl, rfl⟩

/-- Witness for C6: a malformed-encoding failure, a verification-mismatch
failure and a signing failure at concrete inputs produce equal error
values. -/
theorem error_indistinguishable_witness :
    Error.new = Error.new ∧ Error.new = Error.new :=
  error_indistinguishable.2 [] Error.new rfl ⟨[]⟩ [] ⟨[]⟩ Error.new rfl
    ⟨[], false⟩ [] Error.new rfl

/-- C7: sign–verify correctness: whenever `try_sign` on a keypair's
signing half produces a signature for message `m`, verifying that
signature against `m` with the derived verifying half succeeds. -/
theorem try_sign_verify (sk : SigningKey) (m : List Byte)
    (s : Ed25519Like) (h : sk.try_sign m = Except.ok s) :
    (sk.verifying_half).verify m s = Except.ok () := by
  rw [try_sign_ok h]
  exact verify_rawSign sk m

/-- Witness for C7 at a concrete keypair and message. -/
theorem try_sign_verify_witness :
    (SigningKey.verifying_half ⟨[1], true⟩).verify [2]
        ⟨rawSign [1] [2]⟩ = Except.ok () :=
  try_sign_verify ⟨[1], true⟩ [2] ⟨rawSign [1] [2]⟩ rfl

/-- C8: the infallible-path `sign` never returns normally with an invalid
signature: every signature it does return verifies against the derived
verifying half, and when its assumed-infallible precondition is violated
(`try_sign` fails) it aborts the calling context instead of returning any
value. -/
theorem sign_never_invalid :
    (∀ (sk : SigningKey) (m : List Byte) (s : Ed25519Like),
        sk.sign m = some s →
        (sk.verifying_half).verify m s = Except.ok ()) ∧
    (∀ (sk : SigningKey) (m : List Byte) (e : Error),
        sk.try_sign m = Except.error e → sk.sign m = none) := by
  constructor
  · intro sk m s h
    rw [try_sign_ok (sign_some h)]
    exact verify_rawSign sk m
  · intro sk m e h
    unfold SigningKey.sign
    rw [h]

/-- Witness for C8: a concrete available keypair returns a verifying
signature, and a concrete unavailable keypair aborts. -/
theorem sign_never_invalid_witness :
    (SigningKey.verifying_half ⟨[1], true⟩).verify [2]
        ⟨rawSign [1] [2]⟩ = Except.ok () ∧
      SigningKey.sign ⟨[3], false⟩ [4] = none :=
  ⟨sign_never_invalid.1 ⟨[1], true⟩ [2] ⟨rawSign [1] [2]⟩ rfl,
   sign_never_invalid.2 ⟨[3], false⟩ [4] Error.new rfl⟩

/-- C10: the default `to_bytes` implementation equals the trait's required
`Into<Repr>` conversion applied to a clone of the signature, for every
implementing type; the signature itself is passed by reference and left
unchanged (the embedding consumes no state). -/
theorem to_bytes_eq_into_clone :
    ∀ (S R : Type) (e : SignatureEncoding S R) (s : S),
      e.to_bytes s = e.into (e.clone s) :=
  fun _ _ _ _ => rfl
